import Mathlib

/-!
Verification of the reserved-word segmenter and rule-layered classifiers of
this repository (`highhit/enhanced_classifier_v3_with_reserved_words.py` and
`highhit/ultimate_classifier_with_reserved_words.py`).

Texts are modelled as `List Char` (one entry per Unicode code point, matching
Python string indexing/length).  Scores are modelled as `ℚ` (the Python code
uses floats, but every property checked here — ordering of rule application,
signs, and [0,1] bounds — is insensitive to rounding).  The generic word
segmenter (jieba), the regex engine used by the v3 classifier, and the
TF-IDF/cosine similarity collaborator are external collaborators and are
passed in as function parameters; the similarity collaborator returns
`Option ℚ`, with `none` standing for a raised exception (which the source
catches and converts to a 0.0 score).

Several scanning functions (`replaceAll`, placeholder removal, bracket
removal, whitespace collapsing) skip a variable number of characters per
step; they are written with an explicit fuel argument (initialised to the
length of the string, which each step strictly decreases below) so that they
are structurally recursive and kernel-evaluable.
-/

namespace Cht

/-- Convert a string literal to the character-list representation. -/
def cs (s : String) : List Char := s.data

/-- Python `str.strip` / `\s` whitespace (the ASCII part, which is all this
repository's data exercises). -/
def isPyWs (c : Char) : Bool :=
  c == ' ' || c == '\t' || c == '\n' || c == '\x0b' || c == '\x0c' || c == '\r'

/-- Python `str.strip`: drop leading and trailing whitespace. -/
def stripL (s : List Char) : List Char :=
  ((s.dropWhile isPyWs).reverse.dropWhile isPyWs).reverse

/-- `startsWith pat s` holds when `pat` is an initial segment of `s`. -/
def startsWith : List Char → List Char → Bool
  | [], _ => true
  | _ :: _, [] => false
  | p :: ps, c :: rest => p == c && startsWith ps rest

/-- Python `pat in s`: substring containment (true for the empty pattern). -/
def containsSub (pat : List Char) : List Char → Bool
  | [] => pat.isEmpty
  | c :: rest => startsWith pat (c :: rest) || containsSub pat rest

/-- Fuel-indexed body of Python `s.replace(pat, rep)` for a non-empty `pat`:
replace every non-overlapping occurrence, scanning left to right. -/
def replaceAllF (pat rep : List Char) : ℕ → List Char → List Char
  | 0, s => s
  | _ + 1, [] => []
  | f + 1, c :: rest =>
    if startsWith pat (c :: rest) then
      rep ++ replaceAllF pat rep f ((c :: rest).drop pat.length)
    else
      c :: replaceAllF pat rep f rest

/-- Python `s.replace(pat, rep)` (the source only calls it with non-empty
patterns; for an empty pattern this returns `s` unchanged). -/
def replaceAll (pat rep s : List Char) : List Char :=
  if pat.isEmpty then s else replaceAllF pat rep s.length s

/-- The tag scanned for by the v3 placeholder-removal regex. -/
def resTag : List Char := cs "RESERVED_"

/-- Fuel-indexed body of `re.sub(r'\[RESERVED_\d+\]', '', s)`: delete every
span consisting of `[RESERVED_`, at least one digit, and `]`. -/
def rpF : ℕ → List Char → List Char
  | 0, s => s
  | _ + 1, [] => []
  | f + 1, ch :: rest =>
    if ch == '[' && startsWith resTag rest then
      if !((rest.drop resTag.length).takeWhile (fun c => c.isDigit)).isEmpty &&
          startsWith [']']
            ((rest.drop resTag.length).dropWhile (fun c => c.isDigit)) then
        rpF f (((rest.drop resTag.length).dropWhile (fun c => c.isDigit)).drop 1)
      else ch :: rpF f rest
    else ch :: rpF f rest

/-- `re.sub(r'\[RESERVED_\d+\]', '', s)` as used by the v3 segmenter. -/
def removePlaceholders (s : List Char) : List Char := rpF s.length s

/-- The characters that can occur in a v3 placeholder span: only such
characters can be deleted by `removePlaceholders`. -/
def phAlphaP (c : Char) : Bool := c.isDigit || (cs "[]_RESERVED").elem c

/-- Fuel-indexed body of `re.sub(r'\s+', ' ', s)`: collapse every whitespace
run to a single space. -/
def cwF : ℕ → List Char → List Char
  | 0, s => s
  | _ + 1, [] => []
  | f + 1, ch :: rest =>
    if isPyWs ch then ' ' :: cwF f (rest.dropWhile isPyWs)
    else ch :: cwF f rest

/-- `re.sub(r'\s+', ' ', s.strip())`, the "basic cleaning" of
`EnhancedClassifierV3.preprocess_text`. -/
def collapseWs (s : List Char) : List Char := cwF s.length s

/-- Fuel-indexed body of `re.sub(r'\([^)]*\)', '', s)`: delete every span
from a `(` to the first following `)`. -/
def rbF : ℕ → List Char → List Char
  | 0, s => s
  | _ + 1, [] => []
  | f + 1, ch :: rest =>
    if ch == '(' then
      match rest.dropWhile (fun c => !(c == ')')) with
      | ')' :: tail => rbF f tail
      | _ => ch :: rbF f rest
    else ch :: rbF f rest

/-- `re.sub(r'\([^)]*\)', '', s)` (bracket-content removal). -/
def removeBrackets (s : List Char) : List Char := rbF s.length s

/-- Fuel-indexed body of the group extracted by
`re.search(r'\(([^)]*)\)', s)`: content of the first complete bracket pair. -/
def fbF : ℕ → List Char → Option (List Char)
  | 0, _ => none
  | _ + 1, [] => none
  | f + 1, ch :: rest =>
    if ch == '(' then
      match rest.dropWhile (fun c => !(c == ')')) with
      | ')' :: _ => some (rest.takeWhile (fun c => !(c == ')')))
      | _ => fbF f rest
    else fbF f rest

/-- First bracket content of `s`, or `none` when no bracket pair occurs. -/
def firstBracket (s : List Char) : Option (List Char) := fbF s.length s

/-- Python `str.lower` restricted to the ASCII range exercised by the data. -/
def toLowerCh (c : Char) : Char :=
  if 'A' ≤ c ∧ c ≤ 'Z' then Char.ofNat (c.toNat + 32) else c

/-- `str.lower` on a text. -/
def lowerL (s : List Char) : List Char := s.map toLowerCh

/-- Python `' '.join(parts)`. -/
def joinSp (parts : List (List Char)) : List Char := List.intercalate [' '] parts

/-! ## The v3 reserved-word lexicon

Keys of `ReservedWordProcessor.reserved_words`, in dictionary insertion
order.  The source assigns the key 網路設備 twice; a Python dict keeps the
first insertion position, so the key appears once, at its first position. -/

def v3ReservedKeys : List (List Char) :=
  [cs "防火牆", cs "資料庫", cs "作業系統", cs "管理系統", cs "儲存媒體",
   cs "應用程式", cs "網路設備", cs "伺服器", cs "虛擬機", cs "容器化",
   cs "資料庫管理系統", cs "網路防火牆", cs "可攜式儲存媒體", cs "備份管理系統",
   cs "監控管理系統",
   cs "內部人員", cs "外部人員", cs "承辦人", cs "管理員", cs "使用者",
   cs "作業文件", cs "電子紀錄", cs "程序文件", cs "技術文件", cs "操作手冊",
   cs "網路服務", cs "應用服務", cs "資料服務", cs "雲端服務",
   cs "防火牆設備", cs "儲存設備", cs "安全設備", cs "監控設備",
   cs "MySQL", cs "Oracle", cs "SQL Server", cs "Windows", cs "Linux",
   cs "Microsoft", cs "VMware", cs "Docker",
   cs "辦公室", cs "會議室", cs "機房", cs "資料中心",
   cs "API", cs "SOP", cs "ERP", cs "CRM"]

/-- Stable insertion of `x` into a length-descending list: `x` goes in front
of the first element that is not longer than `x` (so, combined with `foldr`,
elements of equal length keep their original relative order, exactly like
Python's stable `sorted(..., key=len, reverse=True)`). -/
def insertLenDesc (x : List Char) : List (List Char) → List (List Char)
  | [] => [x]
  | y :: ys => if y.length ≤ x.length then x :: y :: ys else y :: insertLenDesc x ys

/-- `sorted(phrases, key=len, reverse=True)` (stable). -/
def sortByLenDesc (l : List (List Char)) : List (List Char) :=
  l.foldr insertLenDesc []

/-- The v3 lexicon in the order the extraction loop tries it. -/
def sortedReservedV3 : List (List Char) := sortByLenDesc v3ReservedKeys

/-- The v3 placeholder text `' [RESERVED_{n}] '`. -/
def phMark (n : ℕ) : List Char := cs " [RESERVED_" ++ (Nat.repr n).data ++ cs "] "

/-- Shared loop body of `ReservedWordProcessor.extract_reserved_words` and
`UltimateClassifier.process_text_with_reserved_words`: for each phrase
(tried in the given order), test containment **in the original text**, and
on a hit append the phrase to `found` and replace its occurrences in the
running remainder with the placeholder `mark n` (where `n` is the new length
of `found`; the ultimate variant ignores `n`). -/
def extractLoop (mark : ℕ → List Char) (text : List Char) :
    List (List Char) → List (List Char) × List Char → List (List Char) × List Char
  | [], st => st
  | p :: ps, (found, rem) =>
    if containsSub p text then
      extractLoop mark text ps (found ++ [p], replaceAll p (mark (found.length + 1)) rem)
    else
      extractLoop mark text ps (found, rem)

/-- `ReservedWordProcessor.extract_reserved_words`: returns the list of found
reserved phrases and the (stripped) remaining text. -/
def extractReservedWords (text : List Char) : List (List Char) × List Char :=
  let r := extractLoop phMark text sortedReservedV3 ([], text)
  (r.1, stripL r.2)

/-- Result of `ReservedWordProcessor.process_with_reserved_words`. -/
structure V3Processed where
  reserved : List (List Char)
  regular : List (List Char)
  allTokens : List (List Char)
  original : List Char
deriving DecidableEq, Repr

/-- `ReservedWordProcessor.process_with_reserved_words`.  `cut` is the
generic word segmenter (jieba) collaborator. -/
def processWithReservedWordsV3 (cut : List Char → List (List Char))
    (text : List Char) : V3Processed :=
  let e := extractReservedWords text
  let regular :=
    if e.2.isEmpty then []
    else
      let clean := removePlaceholders e.2
      if (stripL clean).isEmpty then []
      else (cut (stripL clean)).filter (fun w => !(stripL w).isEmpty)
  { reserved := e.1, regular := regular, allTokens := e.1 ++ regular, original := text }

/-- The text variants computed by `EnhancedClassifierV3.preprocess_text` that
the classification path reads (`traditional_words`, `no_spaces` and
`pos_tags` are computed by the source but never used by `classify_text`, and
are omitted). -/
structure V3Variants where
  original : List Char
  cleaned : List Char
  noBrackets : List Char
  bracketContent : List Char
  lowerCase : List Char
  reserved : List (List Char)
  regular : List (List Char)
  allTokens : List (List Char)
deriving DecidableEq, Repr

/-- `EnhancedClassifierV3.preprocess_text` (every field is computed from
`cleaned = re.sub(r'\s+', ' ', text.strip())`, as in the source). -/
def preprocessTextV3 (cut : List Char → List (List Char)) (text : List Char) :
    V3Variants :=
  { original := stripL text
    cleaned := collapseWs (stripL text)
    noBrackets := stripL (removeBrackets (collapseWs (stripL text)))
    bracketContent := match firstBracket (collapseWs (stripL text)) with
      | none => []
      | some b => stripL b
    lowerCase := lowerL (collapseWs (stripL text))
    reserved := (processWithReservedWordsV3 cut (collapseWs (stripL text))).reserved
    regular := (processWithReservedWordsV3 cut (collapseWs (stripL text))).regular
    allTokens := (processWithReservedWordsV3 cut (collapseWs (stripL text))).allTokens }

/-! ## The ultimate-variant lexicon and segmenter

`UltimateClassifier.reserved_words`: phrases mapped to their semantic
decomposition, in dictionary insertion order. -/

def ultLexicon : List (List Char × List (List Char)) :=
  [(cs "防火牆設備", [cs "防火牆", cs "設備"]),
   (cs "網路設備", [cs "網路", cs "設備"]),
   (cs "儲存設備", [cs "儲存", cs "設備"]),
   (cs "監控設備", [cs "監控", cs "設備"]),
   (cs "安全設備", [cs "安全", cs "設備"]),
   (cs "資料庫管理系統", [cs "資料庫", cs "管理系統"]),
   (cs "資料庫系統", [cs "資料庫", cs "系統"]),
   (cs "管理系統", [cs "管理", cs "系統"]),
   (cs "內部人員", [cs "內部", cs "人員"]),
   (cs "外部人員", [cs "外部", cs "人員"]),
   (cs "系統管理員", [cs "系統", cs "管理員"]),
   (cs "作業文件", [cs "作業", cs "文件"]),
   (cs "電子紀錄", [cs "電子", cs "紀錄"]),
   (cs "程序文件", [cs "程序", cs "文件"]),
   (cs "技術文件", [cs "技術", cs "文件"]),
   (cs "網路服務", [cs "網路", cs "服務"]),
   (cs "雲端服務", [cs "雲端", cs "服務"]),
   (cs "應用服務", [cs "應用", cs "服務"]),
   (cs "可攜式儲存媒體", [cs "可攜式", cs "儲存媒體"]),
   (cs "儲存媒體", [cs "儲存", cs "媒體"]),
   (cs "作業系統", [cs "作業系統"]),
   (cs "Windows", [cs "Windows"]),
   (cs "Linux", [cs "Linux"]),
   (cs "MySQL", [cs "MySQL"]),
   (cs "Oracle", [cs "Oracle"])]

/-- The ultimate lexicon keys in the order the extraction loop tries them. -/
def sortedReservedUlt : List (List Char) :=
  sortByLenDesc (ultLexicon.map (fun e => e.1))

/-- The fixed ultimate-variant placeholder `' [RESERVED] '`. -/
def ultMark : List Char := cs " [RESERVED] "

/-- Result of `UltimateClassifier.process_text_with_reserved_words`. -/
structure UltProcessed where
  original : List Char
  reserved : List (List Char)
  remaining : List (List Char)
  expanded : List (List Char)
  allTokens : List (List Char)
  processedText : List Char
deriving DecidableEq, Repr

/-- The greedy extraction pass of
`UltimateClassifier.process_text_with_reserved_words`. -/
def ultExtract (text : List Char) : List (List Char) × List Char :=
  extractLoop (fun _ => ultMark) text sortedReservedUlt ([], text)

/-- The generic-segmentation pass of the ultimate variant: strip the fixed
placeholder out of the remainder and keep only tokens whose stripped length
exceeds 1. -/
def ultRemaining (cut : List Char → List (List Char)) (text : List Char) :
    List (List Char) :=
  if (stripL (replaceAll (cs "[RESERVED]") [] (ultExtract text).2)).isEmpty then []
  else
    (cut (stripL (replaceAll (cs "[RESERVED]") [] (ultExtract text).2))).filter
      (fun w => 1 < (stripL w).length)

/-- Decomposition expansion of the found phrases (a found phrase missing
from the lexicon would be kept whole; in practice every found phrase is a
lexicon key). -/
def ultExpand (found : List (List Char)) : List (List Char) :=
  found.flatMap (fun r =>
    match ultLexicon.lookup r with
    | some comps => comps
    | none => [r])

/-- `UltimateClassifier.process_text_with_reserved_words`: greedy extraction
with a fixed placeholder, generic segmentation of the remainder, and
decomposition expansion of the found phrases. -/
def processUlt (cut : List Char → List (List Char)) (text : List Char) :
    UltProcessed :=
  { original := text
    reserved := (ultExtract text).1
    remaining := ultRemaining cut text
    expanded := ultExpand (ultExtract text).1
    allTokens := ultExpand (ultExtract text).1 ++ ultRemaining cut text
    processedText := joinSp (ultExpand (ultExtract text).1 ++ ultRemaining cut text) }

/-! ## The v3 classifier: category profiles -/

/-- One category's keyword tiers (`EnhancedClassifierV3.category_keywords`
entry). -/
structure Tiers where
  strong : List (List Char)
  medium : List (List Char)
  weak : List (List Char)
deriving DecidableEq, Repr

/-- `EnhancedClassifierV3.category_keywords`. -/
def v3Keywords : List (List Char × Tiers) :=
  [(cs "軟體",
    { strong := [cs "系統", cs "軟體", cs "應用程式", cs "資料庫", cs "程式",
                 cs "語言", cs "平台", cs "框架", cs "資料庫管理系統", cs "MySQL",
                 cs "Oracle", cs "SQL Server", cs "Windows", cs "Linux"]
      medium := [cs "server", cs "sql", cs "unix", cs "java", cs "python",
                 cs ".net", cs "asp", cs "API", cs "ERP", cs "CRM"]
      weak := [cs "管理", cs "開發", cs "服務器", cs "應用"] }),
   (cs "硬體",
    { strong := [cs "硬體", cs "設備", cs "伺服器", cs "主機", cs "電腦",
                 cs "網路設備", cs "儲存設備", cs "防火牆設備", cs "監控設備",
                 cs "安全設備"]
      medium := [cs "server", cs "交換器", cs "路由器", cs "防火牆", cs "印表機",
                 cs "儲存"]
      weak := [cs "機器", cs "設施", cs "終端", cs "裝置"] }),
   (cs "實體",
    { strong := [cs "實體", cs "環境", cs "設施", cs "場所", cs "空間", cs "機房",
                 cs "辦公室", cs "會議室", cs "資料中心"]
      medium := [cs "建築", cs "場地", cs "位置", cs "區域", cs "可攜式儲存媒體"]
      weak := [cs "地點", cs "處所", cs "媒體"] }),
   (cs "資料",
    { strong := [cs "資料", cs "文件", cs "檔案", cs "紀錄", cs "合約", cs "文檔",
                 cs "作業文件", cs "電子紀錄", cs "程序文件", cs "技術文件",
                 cs "操作手冊"]
      medium := [cs "作業", cs "程序", cs "SOP", cs "備份", cs "日誌", cs "原始碼",
                 cs "手冊"]
      weak := [cs "紀錄", cs "資訊", cs "內容", cs "報告"] }),
   (cs "人員",
    { strong := [cs "人員", cs "員工", cs "職員", cs "使用者", cs "用戶",
                 cs "管理員", cs "內部人員", cs "外部人員", cs "承辦人"]
      medium := [cs "內部", cs "外部", cs "客戶", cs "廠商", cs "委外"]
      weak := [cs "人", cs "者", cs "工作人員"] }),
   (cs "服務",
    { strong := [cs "服務", cs "應用服務", cs "系統服務", cs "網路服務",
                 cs "雲端服務", cs "資料服務"]
      medium := [cs "api", cs "web", cs "網站", cs "入口網站", cs "應用"]
      weak := [cs "功能", cs "支援", cs "平台"] })]

/-- `EnhancedClassifierV3.category_patterns`.  The regex engine is an
external collaborator (abstracted as the `matcher` parameter below), so each
pattern is carried as its source text. -/
def v3Patterns : List (List Char × List (List Char)) :=
  [(cs "軟體",
    [cs ".*系統$", cs ".*軟體$", cs ".*程式.*", cs ".*資料庫.*",
     cs ".*(windows|linux|unix|sql|mysql|oracle).*", cs "資料庫管理系統",
     cs "管理系統"]),
   (cs "硬體",
    [cs ".*設備$", cs ".*主機$", cs ".*伺服器.*", cs ".*電腦.*",
     cs ".*(server|交換器|路由器).*", cs "防火牆設備", cs "網路設備"]),
   (cs "資料",
    [cs ".*文件.*", cs ".*檔案.*", cs ".*紀錄.*", cs ".*合約.*",
     cs ".*(sop|備份|日誌|原始碼).*", cs "作業文件", cs "電子紀錄"]),
   (cs "人員",
    [cs ".*人員$", cs ".*員工.*", cs ".*使用者.*", cs ".*管理員.*",
     cs "內部人員", cs "外部人員", cs "承辦人"]),
   (cs "服務",
    [cs ".*服務.*", cs ".*應用.*", cs ".*(api|web|網站).*",
     cs "網路服務", cs "雲端服務", cs "應用服務"])]

/-- One category's exclusion/boost rule table
(`EnhancedClassifierV3.exclusion_rules` entry).  An absent key in the Python
dict behaves exactly like an empty list (the corresponding loop runs zero
times), so absent keys are modelled as `[]`. -/
structure ExclusionRules where
  includeReserved : List (List Char)
  excludeReserved : List (List Char)
  includeIfReservedAndHas : List (List Char × List Char)
  excludeIfReservedAndHas : List (List Char × List Char)
  excludeIfHas : List (List Char)
  includeIfHas : List (List Char)
deriving DecidableEq, Repr

/-- The all-absent rule table (category not present in `exclusion_rules`). -/
def noRules : ExclusionRules :=
  { includeReserved := [], excludeReserved := [], includeIfReservedAndHas := [],
    excludeIfReservedAndHas := [], excludeIfHas := [], includeIfHas := [] }

/-- `EnhancedClassifierV3.exclusion_rules`. -/
def v3ExclusionRules : List (List Char × ExclusionRules) :=
  [(cs "人員",
    { noRules with
      excludeIfHas := [cs "文件", cs "檔案", cs "資料", cs "程序", cs "系統",
                       cs "設備", cs "服務", cs "資料庫"]
      excludeReserved := [cs "作業文件", cs "電子紀錄", cs "程序文件",
                          cs "技術文件"] }),
   (cs "資料",
    { noRules with
      includeReserved := [cs "作業文件", cs "電子紀錄", cs "程序文件",
                          cs "技術文件", cs "操作手冊"]
      includeIfHas := [cs "文件", cs "檔案", cs "紀錄", cs "合約", cs "作業",
                       cs "SOP"] }),
   (cs "軟體",
    { noRules with
      includeReserved := [cs "資料庫管理系統", cs "MySQL", cs "Oracle",
                          cs "SQL Server", cs "Windows", cs "Linux"]
      excludeIfReservedAndHas := [(cs "防火牆", cs "設備")] }),
   (cs "硬體",
    { noRules with
      includeReserved := [cs "防火牆設備", cs "網路設備", cs "儲存設備",
                          cs "監控設備", cs "安全設備"]
      includeIfReservedAndHas := [(cs "防火牆", cs "設備")] })]

/-! ## The v3 classifier: scoring -/

/-- The bidirectional containment test of
`EnhancedClassifierV3.calculate_reserved_word_score`:
`keyword in reserved_word or reserved_word in keyword`. -/
def tierMatch (tier : List (List Char)) (rw : List Char) : Bool :=
  tier.any (fun k => containsSub k rw || containsSub rw k)

/-- Loop body of `calculate_reserved_word_score`: per reserved phrase, add
4/3/2 to the running score (and 1 to the match count) according to the
first tier it matches. -/
def reservedStep (kw : Tiers) (acc : ℚ × ℕ) (rw : List Char) : ℚ × ℕ :=
  if tierMatch kw.strong rw then (acc.1 + 4, acc.2 + 1)
  else if tierMatch kw.medium rw then (acc.1 + 3, acc.2 + 1)
  else if tierMatch kw.weak rw then (acc.1 + 2, acc.2 + 1)
  else acc

/-- Reserved-word score for one tier table: tiered increments (4/3/2) per
found reserved phrase, normalised by the number of reserved phrases and
capped at 1. -/
def reservedScoreOf (kw : Tiers) (reserved : List (List Char)) : ℚ :=
  if reserved.isEmpty then 0
  else
    if 0 < (reserved.foldl (reservedStep kw) (0, 0)).2 then
      min ((reserved.foldl (reservedStep kw) (0, 0)).1 / (reserved.length : ℚ)) 1
    else 0

/-- `EnhancedClassifierV3.calculate_reserved_word_score`. -/
def calcReservedWordScoreV3 (cat : List Char) (reserved : List (List Char)) : ℚ :=
  match v3Keywords.lookup cat with
  | none => 0
  | some kw => reservedScoreOf kw reserved

/-- The text `calculate_keyword_score` searches: the space-join of the
variants, lower-cased. -/
def keywordSearchText (v : V3Variants) : List Char :=
  lowerL (joinSp [v.cleaned, v.noBrackets, v.bracketContent,
                  joinSp v.allTokens, joinSp v.reserved])

/-- Number of keywords of one tier contained (case-insensitively) in the
search text. -/
def keywordHits (tier : List (List Char)) (allText : List Char) : ℚ :=
  ((tier.filter (fun k => containsSub (lowerL k) allText)).length : ℚ)

/-- The maximum attainable keyword score of a category
(`3·|strong| + 2·|medium| + 1·|weak|`). -/
def keywordMax (kw : Tiers) : ℚ :=
  3 * kw.strong.length + 2 * kw.medium.length + kw.weak.length

/-- The normalised keyword score for one tier table. -/
def keywordScoreOf (kw : Tiers) (allText : List Char) : ℚ :=
  if 0 < keywordMax kw then
    (3 * keywordHits kw.strong allText + 2 * keywordHits kw.medium allText
      + keywordHits kw.weak allText) / keywordMax kw
  else 0

/-- `EnhancedClassifierV3.calculate_keyword_score`: weighted (3/2/1) hits,
normalised by the maximum attainable score of the category's lists. -/
def calcKeywordScoreV3 (cat : List Char) (v : V3Variants) : ℚ :=
  match v3Keywords.lookup cat with
  | none => 0
  | some kw => keywordScoreOf kw (keywordSearchText v)

/-- The text variants `calculate_pattern_score` tests patterns against. -/
def patternTests (v : V3Variants) : List (List Char) :=
  [v.cleaned, v.noBrackets, v.bracketContent, v.lowerCase,
   joinSp v.reserved, joinSp v.allTokens]

/-- The fraction of patterns matching at least one non-empty test text
(each pattern counts at most once). -/
def patternScoreOf (matcher : List Char → List Char → Bool)
    (pats tests : List (List Char)) : ℚ :=
  if pats.isEmpty then 0
  else
    ((pats.filter
      (fun p => tests.any (fun t => !t.isEmpty && matcher p t))).length : ℚ) /
      (pats.length : ℚ)

/-- `EnhancedClassifierV3.calculate_pattern_score` (`matcher` is the
regex-engine collaborator). -/
def calcPatternScoreV3 (matcher : List Char → List Char → Bool)
    (cat : List Char) (v : V3Variants) : ℚ :=
  match v3Patterns.lookup cat with
  | none => 0
  | some pats => patternScoreOf matcher pats (patternTests v)

/-- The combined text `calculate_similarity_score` vectorises. -/
def similaritySearchText (v : V3Variants) : List Char :=
  stripL (joinSp [v.cleaned, v.noBrackets, v.bracketContent, joinSp v.allTokens])

/-- `EnhancedClassifierV3.calculate_similarity_score`.  `sim` is the
TF-IDF/cosine collaborator; `none` stands both for a raised exception
(caught by the source's bare `except`) and for the guarded cases of a
missing vectorizer or missing category centroid, all of which yield 0.0. -/
def calcSimilarityScoreV3 (sim : List Char → List Char → Option ℚ)
    (cat : List Char) (v : V3Variants) : ℚ :=
  if (similaritySearchText v).isEmpty then 0
  else
    match sim (similaritySearchText v) cat with
    | none => 0
    | some q => q

/-- The lower-cased text the exclusion rules test substrings against. -/
def exclusionSearchText (v : V3Variants) : List Char :=
  lowerL (joinSp [v.cleaned, v.noBrackets, v.bracketContent])

/-- `EnhancedClassifierV3.apply_exclusion_rules` for one rule table: the six
rule classes, in the source's order, each returning immediately on its first
hit. -/
def applyExclusionRules (rules : ExclusionRules) (reserved : List (List Char))
    (combinedText : List Char) (base : ℚ) : ℚ :=
  if rules.includeReserved.any (fun w => reserved.elem w) then base * 2
  else if rules.excludeReserved.any (fun w => reserved.elem w) then base * (1 / 5)
  else if rules.includeIfReservedAndHas.any
      (fun pr => reserved.elem pr.1 && containsSub pr.2 combinedText) then
    base * 2
  else if rules.excludeIfReservedAndHas.any
      (fun pr => reserved.elem pr.1 && containsSub pr.2 combinedText) then
    base * (1 / 5)
  else if rules.excludeIfHas.any (fun w => containsSub w combinedText) then
    base * (3 / 10)
  else if rules.includeIfHas.any (fun w => containsSub w combinedText) then
    base * (3 / 2)
  else base

/-- `apply_exclusion_rules` including the table lookup (a category without a
rule table keeps its base score). -/
def applyExclusionRulesFor (cat : List Char) (v : V3Variants) (base : ℚ) : ℚ :=
  match v3ExclusionRules.lookup cat with
  | none => base
  | some rules => applyExclusionRules rules v.reserved (exclusionSearchText v) base

/-- The fixed convex weighting of `classify_text`
(reserved 40%, keyword 25%, pattern 20%, similarity 15%). -/
def v3Weighted (r k p s : ℚ) : ℚ :=
  r * (2 / 5) + k * (1 / 4) + p * (1 / 5) + s * (3 / 20)

/-- The per-(input, category) score breakdown of `classify_text`. -/
structure V3Breakdown where
  reservedScore : ℚ
  keywordScore : ℚ
  patternScore : ℚ
  similarityScore : ℚ
  totalScore : ℚ
deriving DecidableEq, Repr

/-- The four sub-scores, their weighted combination and the rule-adjusted
total, as computed inside `classify_text`'s category loop. -/
def scoreBreakdownV3 (matcher : List Char → List Char → Bool)
    (sim : List Char → List Char → Option ℚ) (v : V3Variants)
    (cat : List Char) : V3Breakdown :=
  { reservedScore := calcReservedWordScoreV3 cat v.reserved
    keywordScore := calcKeywordScoreV3 cat v
    patternScore := calcPatternScoreV3 matcher cat v
    similarityScore := calcSimilarityScoreV3 sim cat v
    totalScore := applyExclusionRulesFor cat v
      (v3Weighted (calcReservedWordScoreV3 cat v.reserved)
        (calcKeywordScoreV3 cat v) (calcPatternScoreV3 matcher cat v)
        (calcSimilarityScoreV3 sim cat v)) }

/-- Python `max(items, key=f)`: the first element attaining the maximum
(a later element replaces the current best only when strictly greater). -/
def pickBest (f : List Char → ℚ) : List Char → List (List Char) → List Char
  | b, [] => b
  | b, x :: xs => pickBest f (if f b < f x then x else b) xs

/-- Result of `EnhancedClassifierV3.classify_text`. -/
structure V3Result where
  best : List Char
  confidence : ℚ
  scores : List (List Char × V3Breakdown)
deriving DecidableEq, Repr

/-- `EnhancedClassifierV3.classify_text`.  `cats` is the category list drawn
from the training data (`data['資產類別'].unique()`); an empty list models
the empty-training-set error return. -/
def classifyV3 (cut : List Char → List (List Char))
    (matcher : List Char → List Char → Bool)
    (sim : List Char → List Char → Option ℚ)
    (cats : List (List Char)) (text : List Char) : Option V3Result :=
  match cats with
  | [] => none
  | c0 :: rest =>
    some
      { best := pickBest
          (fun c => (scoreBreakdownV3 matcher sim (preprocessTextV3 cut text) c).totalScore)
          c0 rest
        confidence := (scoreBreakdownV3 matcher sim (preprocessTextV3 cut text)
          (pickBest
            (fun c => (scoreBreakdownV3 matcher sim (preprocessTextV3 cut text) c).totalScore)
            c0 rest)).totalScore
        scores := (c0 :: rest).map
          (fun c => (c, scoreBreakdownV3 matcher sim (preprocessTextV3 cut text) c)) }

/-! ## The ultimate classifier -/

/-- The shapes of the regex patterns in `UltimateClassifier.category_rules`:
every shipped pattern is `.*lit$` (an ends-with test) or `.*lit.*`
(a containment test), so they are modelled directly by those semantics. -/
inductive UPattern where
  | endsWithLit (lit : List Char)
  | containsLit (lit : List Char)
deriving DecidableEq, Repr

/-- `endsWith lit s`. -/
def endsWithL (lit s : List Char) : Bool := startsWith lit.reverse s.reverse

/-- `re.search` of a shipped ultimate pattern against a text (all shipped
literals are Chinese, so `re.IGNORECASE` is inert). -/
def matchUPattern : UPattern → List Char → Bool
  | .endsWithLit lit, s => endsWithL lit s
  | .containsLit lit, s => containsSub lit s

/-- One category's entry of `UltimateClassifier.category_rules` (the `weight`
field of the source is never read by `calculate_score` and is omitted; the
absent `exclude_if_has_reserved` key is modelled as `[]`, which makes the
corresponding loop run zero times, exactly like the absent key). -/
structure URules where
  keywords : List (List Char)
  upatterns : List UPattern
  reservedBoost : List (List Char)
  excludeIfHasReserved : List (List Char)
deriving DecidableEq, Repr

/-- `UltimateClassifier.category_rules`. -/
def ultRules : List (List Char × URules) :=
  [(cs "軟體",
    { keywords := [cs "系統", cs "軟體", cs "應用程式", cs "資料庫", cs "程式",
                   cs "MySQL", cs "Oracle", cs "Windows", cs "Linux", cs "管理系統"]
      upatterns := [.endsWithLit (cs "系統"), .endsWithLit (cs "軟體"),
                    .containsLit (cs "程式"), .containsLit (cs "資料庫")]
      reservedBoost := [cs "資料庫管理系統", cs "MySQL", cs "Oracle", cs "Windows",
                        cs "Linux", cs "管理系統"]
      excludeIfHasReserved := [] }),
   (cs "實體",
    { keywords := [cs "設備", cs "硬體", cs "伺服器", cs "主機", cs "防火牆",
                   cs "網路", cs "儲存", cs "監控", cs "實體", cs "環境", cs "設施",
                   cs "場所", cs "機房", cs "媒體", cs "可攜式"]
      upatterns := [.endsWithLit (cs "設備"), .endsWithLit (cs "主機"),
                    .containsLit (cs "伺服器"), .containsLit (cs "環境"),
                    .containsLit (cs "設施"), .containsLit (cs "場所")]
      reservedBoost := [cs "防火牆設備", cs "網路設備", cs "儲存設備",
                        cs "監控設備", cs "安全設備", cs "可攜式儲存媒體",
                        cs "儲存媒體"]
      excludeIfHasReserved := [] }),
   (cs "資料",
    { keywords := [cs "資料", cs "文件", cs "檔案", cs "紀錄", cs "合約",
                   cs "作業", cs "電子", cs "程序", cs "技術"]
      upatterns := [.containsLit (cs "文件"), .containsLit (cs "檔案"),
                    .containsLit (cs "紀錄")]
      reservedBoost := [cs "作業文件", cs "電子紀錄", cs "程序文件", cs "技術文件"]
      excludeIfHasReserved := [] }),
   (cs "人員",
    { keywords := [cs "人員", cs "員工", cs "使用者", cs "管理員", cs "內部",
                   cs "外部"]
      upatterns := [.endsWithLit (cs "人員"), .containsLit (cs "員工"),
                    .containsLit (cs "管理員")]
      reservedBoost := [cs "內部人員", cs "外部人員", cs "系統管理員"]
      excludeIfHasReserved := [cs "作業文件", cs "電子紀錄", cs "程序文件"] }),
   (cs "服務",
    { keywords := [cs "服務", cs "應用", cs "網路", cs "雲端", cs "API"]
      upatterns := [.containsLit (cs "服務"), .containsLit (cs "應用")]
      reservedBoost := [cs "網路服務", cs "雲端服務", cs "應用服務"]
      excludeIfHasReserved := [] })]

/-- The reserved-boost sub-score of `UltimateClassifier.calculate_score`:
a fixed 3.0 per boost phrase found, with no normalisation or cap. -/
def ultReservedSub (rules : URules) (reserved : List (List Char)) : ℚ :=
  3 * ((rules.reservedBoost.filter (fun w => reserved.elem w)).length : ℚ)

/-- The keyword sub-score of `UltimateClassifier.calculate_score`: 1.0 per
keyword contained in the lower-cased processed text, unnormalised. -/
def ultKeywordSub (rules : URules) (processedText : List Char) : ℚ :=
  ((rules.keywords.filter
    (fun k => containsSub (lowerL k) (lowerL processedText))).length : ℚ)

/-- The pattern sub-score of `UltimateClassifier.calculate_score`: 1.0 per
pattern matching the original text. -/
def ultPatternSub (rules : URules) (original : List Char) : ℚ :=
  ((rules.upatterns.filter (fun pt => matchUPattern pt original)).length : ℚ)

/-- The similarity sub-score of `UltimateClassifier.calculate_score` (`none`
from the collaborator stands for the caught exception, scored 0.0). -/
def ultSimilaritySub (sim : List Char → List Char → Option ℚ)
    (processedText cat : List Char) : ℚ :=
  match sim processedText cat with
  | none => 0
  | some q => q

/-- The exclusion penalty of `UltimateClassifier.calculate_score`: a flat
2.0 when any excluded reserved phrase was found. -/
def ultExcludePenalty (rules : URules) (reserved : List (List Char)) : ℚ :=
  if rules.excludeIfHasReserved.any (fun w => reserved.elem w) then 2 else 0

/-- `UltimateClassifier.calculate_score`: the weighted sum of the four
sub-scores minus the exclusion penalty, floored at 0.0. -/
def calcScoreUlt (sim : List Char → List Char → Option ℚ) (p : UltProcessed)
    (cat : List Char) : ℚ :=
  match ultRules.lookup cat with
  | none => 0
  | some rules =>
    max 0 (ultReservedSub rules p.reserved * (2 / 5)
      + ultKeywordSub rules p.processedText * (1 / 4)
      + ultPatternSub rules p.original * (1 / 5)
      + ultSimilaritySub sim p.processedText cat * (3 / 20)
      - ultExcludePenalty rules p.reserved)

/-- Result of `UltimateClassifier.classify`. -/
structure UltResult where
  best : List Char
  confidence : ℚ
  scores : List (List Char × ℚ)
deriving DecidableEq, Repr

/-- `UltimateClassifier.classify`. -/
def classifyUlt (cut : List Char → List (List Char))
    (sim : List Char → List Char → Option ℚ)
    (cats : List (List Char)) (text : List Char) : Option UltResult :=
  match cats with
  | [] => none
  | c0 :: rest =>
    some
      { best := pickBest (fun c => calcScoreUlt sim (processUlt cut text) c) c0 rest
        confidence := calcScoreUlt sim (processUlt cut text)
          (pickBest (fun c => calcScoreUlt sim (processUlt cut text) c) c0 rest)
        scores := (c0 :: rest).map
          (fun c => (c, calcScoreUlt sim (processUlt cut text) c)) }

/-! ## The spec's reading of the rule order

`specOrderApplyExclusionRules` is **not** a translation of the source: it
follows the order stated in the specification — (a) reserved-phrase boost,
(b) reserved-phrase penalty, (c) the same two checks conditioned on a
textual substring, (d) the compound reserved-phrase-and-substring rules —
for comparison with `applyExclusionRules`, whose source order is
(a), (b), (d), then (c) with penalty before boost. -/
def specOrderApplyExclusionRules (rules : ExclusionRules)
    (reserved : List (List Char)) (combinedText : List Char) (base : ℚ) : ℚ :=
  if rules.includeReserved.any (fun w => reserved.elem w) then base * 2
  else if rules.excludeReserved.any (fun w => reserved.elem w) then base * (1 / 5)
  else if rules.includeIfHas.any (fun w => containsSub w combinedText) then
    base * (3 / 2)
  else if rules.excludeIfHas.any (fun w => containsSub w combinedText) then
    base * (3 / 10)
  else if rules.includeIfReservedAndHas.any
      (fun pr => reserved.elem pr.1 && containsSub pr.2 combinedText) then
    base * 2
  else if rules.excludeIfReservedAndHas.any
      (fun pr => reserved.elem pr.1 && containsSub pr.2 combinedText) then
    base * (1 / 5)
  else base

/-- The multiplier selected by `applyExclusionRules`: the first matching rule
class, in the source's order, determines it; no later rule contributes. -/
def exclusionMultiplier (rules : ExclusionRules) (reserved : List (List Char))
    (combinedText : List Char) : ℚ :=
  if rules.includeReserved.any (fun w => reserved.elem w) then 2
  else if rules.excludeReserved.any (fun w => reserved.elem w) then 1 / 5
  else if rules.includeIfReservedAndHas.any
      (fun pr => reserved.elem pr.1 && containsSub pr.2 combinedText) then 2
  else if rules.excludeIfReservedAndHas.any
      (fun pr => reserved.elem pr.1 && containsSub pr.2 combinedText) then 1 / 5
  else if rules.excludeIfHas.any (fun w => containsSub w combinedText) then 3 / 10
  else if rules.includeIfHas.any (fun w => containsSub w combinedText) then 3 / 2
  else 1

/-! ## Instance state across calls

The source's classification path (`classify_text` / `classify`,
`preprocess_text` / `process_text_with_reserved_words`, the `calculate_*`
methods and `apply_exclusion_rules`) reads instance attributes but contains
no assignment to `self`; the only `self` writes happen in `__init__` and the
loaders it calls.  The state records below carry everything those methods
read — the collaborator handles and the category list — and the classify
wrappers thread the state explicitly, returning it unchanged exactly as the
source does. -/

/-- The `EnhancedClassifierV3` instance state read by `classify_text`
(the keyword/pattern/exclusion tables are module-level constants here since
`create_category_rules` always builds the same dictionaries). -/
structure V3State where
  cut : List Char → List (List Char)
  matcher : List Char → List Char → Bool
  sim : List Char → List Char → Option ℚ
  cats : List (List Char)

/-- `EnhancedClassifierV3.classify_text` with the instance state threaded
explicitly. -/
def classifyV3St (st : V3State) (text : List Char) :
    Option V3Result × V3State :=
  (classifyV3 st.cut st.matcher st.sim st.cats text, st)

/-- The `UltimateClassifier` instance state read by `classify`. -/
structure UltState where
  cut : List Char → List (List Char)
  sim : List Char → List Char → Option ℚ
  cats : List (List Char)

/-- `UltimateClassifier.classify` with the instance state threaded
explicitly. -/
def classifyUltSt (st : UltState) (text : List Char) :
    Option UltResult × UltState :=
  (classifyUlt st.cut st.sim st.cats text, st)

/-! ## Concrete collaborators used in witnesses

`cutOne` is the simplest generic segmenter satisfying the partition
contract (it returns the whole input as one token); `matchNever` and
`simNever` are the degenerate regex and similarity collaborators. -/

def cutOne : List Char → List (List Char) := fun s => [s]

def matchNever : List Char → List Char → Bool := fun _ _ => false

def simNever : List Char → List Char → Option ℚ := fun _ _ => none

/-! ## Supporting lemmas: character coverage through the segmenter -/

theorem isEmpty_false_of_mem {c : Char} {l : List Char} (hc : c ∈ l) :
    l.isEmpty = false := by
  cases l with
  | nil => cases hc
  | cons a t => rfl

theorem mem_dropWhileP {p : Char → Bool} {c : Char} {l : List Char}
    (hc : c ∈ l) (hp : p c = false) : c ∈ l.dropWhile p := by
  induction l with
  | nil => cases hc
  | cons x xs ih =>
    rw [List.dropWhile_cons]
    by_cases hx : p x = true
    · rcases List.mem_cons.mp hc with rfl | h
      · rw [hp] at hx; cases hx
      · simpa [hx] using ih h
    · simp only [hx, if_neg, Bool.false_ne_true, not_false_iff, if_false]
      exact hc

theorem mem_stripL {c : Char} {s : List Char} (hc : c ∈ s)
    (hw : isPyWs c = false) : c ∈ stripL s := by
  unfold stripL
  rw [List.mem_reverse]
  exact mem_dropWhileP (List.mem_reverse.mpr (mem_dropWhileP hc hw)) hw

theorem mem_of_startsWith {pat : List Char} {c : Char} :
    ∀ {s : List Char}, startsWith pat s = true → c ∈ s →
      c ∈ pat ∨ c ∈ s.drop pat.length := by
  induction pat with
  | nil => intro s _ hc; right; simpa using hc
  | cons p ps ih =>
    intro s h hc
    cases s with
    | nil => cases hc
    | cons a rest =>
      rw [startsWith, Bool.and_eq_true] at h
      obtain ⟨h1, h2⟩ := h
      rcases List.mem_cons.mp hc with rfl | hrest
      · exact Or.inl (by rw [← eq_of_beq h1]; exact List.mem_cons_self _ _)
      · rcases ih h2 hrest with hp | hd
        · exact Or.inl (List.mem_cons_of_mem _ hp)
        · right; simpa using hd

theorem replaceAllF_cover {pat rep : List Char} {c : Char} :
    ∀ (f : ℕ) (s : List Char), c ∈ s →
      c ∈ replaceAllF pat rep f s ∨ c ∈ pat := by
  intro f
  induction f with
  | zero => intro s hc; left; simpa [replaceAllF] using hc
  | succ f ih =>
    intro s hc
    cases s with
    | nil => cases hc
    | cons a rest =>
      rw [replaceAllF]
      by_cases hpre : startsWith pat (a :: rest) = true
      · rcases mem_of_startsWith hpre hc with hp | hd
        · exact Or.inr hp
        · rcases ih _ hd with h1 | h2
          · left; simp only [hpre, if_true]
            exact List.mem_append_right _ h1
          · exact Or.inr h2
      · simp only [hpre, if_false, Bool.false_ne_true, not_false_iff]
        rcases List.mem_cons.mp hc with rfl | h
        · exact Or.inl (List.mem_cons_self _ _)
        · rcases ih _ h with h1 | h2
          · exact Or.inl (List.mem_cons_of_mem _ h1)
          · exact Or.inr h2

theorem replaceAll_cover {pat rep s : List Char} {c : Char} (hc : c ∈ s) :
    c ∈ replaceAll pat rep s ∨ c ∈ pat := by
  unfold replaceAll
  by_cases hp : pat.isEmpty = true
  · left; simpa [hp] using hc
  · simp only [hp, Bool.false_ne_true, not_false_iff, if_false]
    exact replaceAllF_cover _ _ hc

theorem extractLoop_found (mark : ℕ → List Char) (text : List Char) :
    ∀ (ps : List (List Char)) (found : List (List Char)) (rem : List Char),
      (extractLoop mark text ps (found, rem)).1 =
        found ++ ps.filter (fun p => containsSub p text) := by
  intro ps
  induction ps with
  | nil => intro found rem; simp [extractLoop]
  | cons p ps ih =>
    intro found rem
    rw [extractLoop]
    by_cases h : containsSub p text = true
    · simp [h, ih, List.filter_cons]
    · simp [h, ih, List.filter_cons]

theorem extractLoop_cover (mark : ℕ → List Char) (text : List Char) :
    ∀ (ps : List (List Char)) (found : List (List Char)) (rem : List Char)
      {c : Char}, c ∈ rem →
      c ∈ (extractLoop mark text ps (found, rem)).2 ∨
        ∃ p, p ∈ (extractLoop mark text ps (found, rem)).1 ∧ c ∈ p := by
  intro ps
  induction ps with
  | nil => intro found rem c hc; left; simpa [extractLoop] using hc
  | cons p ps ih =>
    intro found rem c hc
    rw [extractLoop]
    by_cases h : containsSub p text = true
    · simp only [h, if_true]
      rcases @replaceAll_cover p (mark (found.length + 1)) rem c hc
        with h1 | h2
      · exact ih _ _ h1
      · right
        refine ⟨p, ?_, h2⟩
        rw [extractLoop_found]
        exact List.mem_append_left _ (List.mem_append_right _ (List.mem_singleton.mpr rfl))
    · simp only [h, if_false, Bool.false_ne_true, not_false_iff]
      exact ih _ _ hc

theorem resTag_alpha {c : Char} (hc : c ∈ resTag) : phAlphaP c = true := by
  have h : resTag.all phAlphaP = true := by decide
  exact List.all_eq_true.mp h _ hc

theorem rpF_cover {c : Char} (ha : phAlphaP c = false) :
    ∀ (f : ℕ) (s : List Char), c ∈ s → c ∈ rpF f s := by
  intro f
  induction f with
  | zero => intro s hc; simpa [rpF] using hc
  | succ f ih =>
    intro s hc
    cases s with
    | nil => cases hc
    | cons ch rest =>
      rw [rpF]
      by_cases hb : (ch == '[' && startsWith resTag rest) = true
      · rw [Bool.and_eq_true] at hb
        obtain ⟨hb1, hb2⟩ := hb
        simp only [hb1, hb2, Bool.and_self, if_true]
        have hcrest : c ∈ rest := by
          rcases List.mem_cons.mp hc with rfl | h
          · rw [eq_of_beq hb1] at ha
            exact absurd ha (by decide)
          · exact h
        rcases mem_of_startsWith hb2 hcrest with htag | hafter
        · rw [resTag_alpha htag] at ha; cases ha
        · have hsplit : c ∈ (rest.drop resTag.length).takeWhile (fun c => c.isDigit) ++
              (rest.drop resTag.length).dropWhile (fun c => c.isDigit) := by
            rw [List.takeWhile_append_dropWhile]; exact hafter
          rcases List.mem_append.mp hsplit with htk | hdw
          · have : c.isDigit = true := List.mem_takeWhile_imp htk
            rw [phAlphaP, this] at ha
            cases ha
          · by_cases hcl :
              (!((rest.drop resTag.length).takeWhile (fun c => c.isDigit)).isEmpty &&
                startsWith [']']
                  ((rest.drop resTag.length).dropWhile (fun c => c.isDigit))) = true
            · simp only [hcl, if_true]
              rw [Bool.and_eq_true] at hcl
              rcases hdk : (rest.drop resTag.length).dropWhile (fun c => c.isDigit)
                with _ | ⟨b, tail⟩
              · rw [hdk] at hdw; cases hdw
              · rw [hdk] at hdw
                have h9 := hcl.2
                rw [hdk] at h9
                simp only [startsWith, Bool.and_eq_true] at h9
                have hbr : b = ']' := (eq_of_beq h9.1).symm
                rcases List.mem_cons.mp hdw with rfl | htail
                · rw [hbr] at ha; exact absurd ha (by decide)
                · rw [hdk]
                  exact ih _ (by simpa using htail)
            · simp only [hcl, if_false, Bool.false_ne_true, not_false_iff]
              exact List.mem_cons_of_mem _ (ih _ hcrest)
      · simp only [hb, if_false, Bool.false_ne_true, not_false_iff]
        rcases List.mem_cons.mp hc with rfl | h
        · exact List.mem_cons_self _ _
        · exact List.mem_cons_of_mem _ (ih _ h)

theorem removePlaceholders_cover {c : Char} {s : List Char} (hc : c ∈ s)
    (ha : phAlphaP c = false) : c ∈ removePlaceholders s :=
  rpF_cover ha _ _ hc

theorem cwF_cover {c : Char} (hw : isPyWs c = false) :
    ∀ (f : ℕ) (s : List Char), c ∈ s → c ∈ cwF f s := by
  intro f
  induction f with
  | zero => intro s hc; simpa [cwF] using hc
  | succ f ih =>
    intro s hc
    cases s with
    | nil => cases hc
    | cons ch rest =>
      rw [cwF]
      by_cases hch : isPyWs ch = true
      · simp only [hch, if_true]
        have hcrest : c ∈ rest := by
          rcases List.mem_cons.mp hc with rfl | h
          · rw [hw] at hch; cases hch
          · exact h
        exact List.mem_cons_of_mem _ (ih _ (mem_dropWhileP hcrest hw))
      · simp only [hch, if_false, Bool.false_ne_true, not_false_iff]
        rcases List.mem_cons.mp hc with rfl | h
        · exact List.mem_cons_self _ _
        · exact List.mem_cons_of_mem _ (ih _ h)

theorem collapseWs_cover {c : Char} {s : List Char} (hc : c ∈ s)
    (hw : isPyWs c = false) : c ∈ collapseWs s :=
  cwF_cover hw _ _ hc

/-- Character coverage of the v3 segmenter: provided the generic tokenizer
partitions its input, every character of the input that is not whitespace
and not in the placeholder alphabet reappears in some output token. -/
theorem segV3_cover (cut : List Char → List (List Char))
    (hcut : ∀ s, (cut s).flatten = s) (text : List Char) {c : Char}
    (hc : c ∈ text) (hw : isPyWs c = false) (ha : phAlphaP c = false) :
    c ∈ ((processWithReservedWordsV3 cut text).reserved ++
      (processWithReservedWordsV3 cut text).regular).flatten := by
  unfold processWithReservedWordsV3 extractReservedWords
  simp only []
  rcases extractLoop_cover phMark text sortedReservedV3 [] text hc with hrem | hph
  case inr =>
    obtain ⟨p, hp, hcp⟩ := hph
    exact List.mem_flatten.mpr ⟨p, List.mem_append_left _ hp, hcp⟩
  case inl =>
    set e2 := (extractLoop phMark text sortedReservedV3 ([], text)).2 with he2
    have h1 : c ∈ stripL e2 := mem_stripL hrem hw
    have h2 : (stripL e2).isEmpty = false := isEmpty_false_of_mem h1
    have h3 : c ∈ removePlaceholders (stripL e2) := removePlaceholders_cover h1 ha
    have h4 : c ∈ stripL (removePlaceholders (stripL e2)) := mem_stripL h3 hw
    have h5 : (stripL (removePlaceholders (stripL e2))).isEmpty = false :=
      isEmpty_false_of_mem h4
    rw [← hcut (stripL (removePlaceholders (stripL e2)))] at h4
    obtain ⟨w, hwmem, hcw⟩ := List.mem_flatten.mp h4
    have hkeep : w ∈ (cut (stripL (removePlaceholders (stripL e2)))).filter
        (fun w => !(stripL w).isEmpty) := by
      rw [List.mem_filter]
      exact ⟨hwmem, by rw [isEmpty_false_of_mem (mem_stripL hcw hw)]; rfl⟩
    refine List.mem_flatten.mpr ⟨w, List.mem_append_right _ ?_, hcw⟩
    simp only [h2, h5, Bool.false_ne_true, not_false_iff, if_false]
    exact hkeep

/-! ## Supporting lemmas: scoring -/

theorem lookup_mem {β : Type} {a : List Char} {b : β} :
    ∀ {l : List (List Char × β)}, l.lookup a = some b → (a, b) ∈ l := by
  intro l
  induction l with
  | nil => intro h; cases h
  | cons e es ih =>
    intro h
    rw [List.lookup] at h
    by_cases hk : (a == e.1) = true
    · simp only [hk] at h
      obtain rfl : e.2 = b := by injection h
      have ha : a = e.1 := eq_of_beq hk
      rw [ha]
      exact List.mem_cons_self _ _
    · simp only [Bool.not_eq_true] at hk
      simp only [hk] at h
      exact List.mem_cons_of_mem _ (ih h)

theorem applyExclusionRules_eq_mul (rules : ExclusionRules)
    (reserved : List (List Char)) (combinedText : List Char) (base : ℚ) :
    applyExclusionRules rules reserved combinedText base =
      base * exclusionMultiplier rules reserved combinedText := by
  unfold applyExclusionRules exclusionMultiplier
  split_ifs <;> ring

theorem exclusionMultiplier_bounds (rules : ExclusionRules)
    (reserved : List (List Char)) (combinedText : List Char) :
    1 / 5 ≤ exclusionMultiplier rules reserved combinedText ∧
      exclusionMultiplier rules reserved combinedText ≤ 2 := by
  unfold exclusionMultiplier
  split_ifs <;> norm_num

theorem reservedFold_nonneg (kw : Tiers) :
    ∀ (l : List (List Char)) (a : ℚ × ℕ), 0 ≤ a.1 →
      0 ≤ (l.foldl (reservedStep kw) a).1 := by
  intro l
  induction l with
  | nil => intro a h; simpa using h
  | cons x xs ih =>
    intro a h
    rw [List.foldl_cons]
    apply ih
    unfold reservedStep
    split_ifs
    · exact add_nonneg h (by norm_num)
    · exact add_nonneg h (by norm_num)
    · exact add_nonneg h (by norm_num)
    · exact h

theorem reservedScoreOf_bounds (kw : Tiers) (reserved : List (List Char)) :
    0 ≤ reservedScoreOf kw reserved ∧ reservedScoreOf kw reserved ≤ 1 := by
  unfold reservedScoreOf
  split_ifs with h1 h2
  · norm_num
  · constructor
    · exact le_min
        (div_nonneg (reservedFold_nonneg kw reserved (0, 0) le_rfl)
          (by positivity))
        zero_le_one
    · exact min_le_right _ _
  · norm_num

theorem calcReservedWordScoreV3_bounds (cat : List Char)
    (reserved : List (List Char)) :
    0 ≤ calcReservedWordScoreV3 cat reserved ∧
      calcReservedWordScoreV3 cat reserved ≤ 1 := by
  unfold calcReservedWordScoreV3
  split
  · norm_num
  · exact reservedScoreOf_bounds _ _

theorem keywordHits_le (tier : List (List Char)) (allText : List Char) :
    keywordHits tier allText ≤ (tier.length : ℚ) := by
  unfold keywordHits
  exact_mod_cast List.length_filter_le _ _

theorem keywordScoreOf_bounds (kw : Tiers) (allText : List Char) :
    0 ≤ keywordScoreOf kw allText ∧ keywordScoreOf kw allText ≤ 1 := by
  unfold keywordScoreOf
  by_cases hmx : 0 < keywordMax kw
  · simp only [hmx, if_true]
    have h0 : (0 : ℚ) ≤ keywordHits kw.strong allText := by
      unfold keywordHits; positivity
    have h1 : (0 : ℚ) ≤ keywordHits kw.medium allText := by
      unfold keywordHits; positivity
    have h2 : (0 : ℚ) ≤ keywordHits kw.weak allText := by
      unfold keywordHits; positivity
    constructor
    · apply div_nonneg _ (le_of_lt hmx)
      linarith
    · rw [div_le_one hmx]
      have b0 := keywordHits_le kw.strong allText
      have b1 := keywordHits_le kw.medium allText
      have b2 := keywordHits_le kw.weak allText
      unfold keywordMax
      linarith
  · simp [hmx]

theorem calcKeywordScoreV3_bounds (cat : List Char) (v : V3Variants) :
    0 ≤ calcKeywordScoreV3 cat v ∧ calcKeywordScoreV3 cat v ≤ 1 := by
  unfold calcKeywordScoreV3
  split
  · norm_num
  · exact keywordScoreOf_bounds _ _

theorem patternScoreOf_bounds (matcher : List Char → List Char → Bool)
    (pats tests : List (List Char)) :
    0 ≤ patternScoreOf matcher pats tests ∧
      patternScoreOf matcher pats tests ≤ 1 := by
  unfold patternScoreOf
  split_ifs with he
  · norm_num
  · have hlen : 0 < (pats.length : ℚ) := by
      cases pats with
      | nil => cases he rfl
      | cons a t => exact_mod_cast Nat.succ_pos t.length
    constructor
    · positivity
    · rw [div_le_one hlen]
      exact_mod_cast List.length_filter_le _ _

theorem calcPatternScoreV3_bounds (matcher : List Char → List Char → Bool)
    (cat : List Char) (v : V3Variants) :
    0 ≤ calcPatternScoreV3 matcher cat v ∧
      calcPatternScoreV3 matcher cat v ≤ 1 := by
  unfold calcPatternScoreV3
  split
  · norm_num
  · exact patternScoreOf_bounds matcher _ _

theorem calcSimilarityScoreV3_nonneg {sim : List Char → List Char → Option ℚ}
    (hsim : ∀ t c q, sim t c = some q → 0 ≤ q) (cat : List Char)
    (v : V3Variants) : 0 ≤ calcSimilarityScoreV3 sim cat v := by
  unfold calcSimilarityScoreV3
  split_ifs with he
  · exact le_rfl
  · split
    · exact le_rfl
    · rename_i q hs
      exact hsim _ _ _ hs

theorem applyExclusionRulesFor_nonneg (cat : List Char) (v : V3Variants)
    {base : ℚ} (hb : 0 ≤ base) : 0 ≤ applyExclusionRulesFor cat v base := by
  unfold applyExclusionRulesFor
  split
  · exact hb
  · rename_i rules hlk
    rw [applyExclusionRules_eq_mul]
    have h := (exclusionMultiplier_bounds rules v.reserved
      (exclusionSearchText v)).1
    nlinarith

theorem applyExclusionRulesFor_zero (cat : List Char) (v : V3Variants) :
    applyExclusionRulesFor cat v 0 = 0 := by
  unfold applyExclusionRulesFor
  split
  · rfl
  · rw [applyExclusionRules_eq_mul, zero_mul]

theorem scoreBreakdownV3_total_nonneg
    {matcher : List Char → List Char → Bool}
    {sim : List Char → List Char → Option ℚ}
    (hsim : ∀ t c q, sim t c = some q → 0 ≤ q) (v : V3Variants)
    (cat : List Char) :
    0 ≤ (scoreBreakdownV3 matcher sim v cat).totalScore := by
  show 0 ≤ applyExclusionRulesFor cat v
    (v3Weighted (calcReservedWordScoreV3 cat v.reserved)
      (calcKeywordScoreV3 cat v) (calcPatternScoreV3 matcher cat v)
      (calcSimilarityScoreV3 sim cat v))
  refine applyExclusionRulesFor_nonneg cat v ?_
  have hr := (calcReservedWordScoreV3_bounds cat v.reserved).1
  have hk := (calcKeywordScoreV3_bounds cat v).1
  have hp := (calcPatternScoreV3_bounds matcher cat v).1
  have hs := calcSimilarityScoreV3_nonneg hsim cat v
  unfold v3Weighted
  have m1 : (0 : ℚ) ≤ calcReservedWordScoreV3 cat v.reserved * (2 / 5) :=
    mul_nonneg hr (by norm_num)
  have m2 : (0 : ℚ) ≤ calcKeywordScoreV3 cat v * (1 / 4) :=
    mul_nonneg hk (by norm_num)
  have m3 : (0 : ℚ) ≤ calcPatternScoreV3 matcher cat v * (1 / 5) :=
    mul_nonneg hp (by norm_num)
  have m4 : (0 : ℚ) ≤ calcSimilarityScoreV3 sim cat v * (3 / 20) :=
    mul_nonneg hs (by norm_num)
  linarith

theorem pickBest_mem (f : List Char → ℚ) :
    ∀ (l : List (List Char)) (b : List Char), pickBest f b l ∈ b :: l := by
  intro l
  induction l with
  | nil => intro b; simp [pickBest]
  | cons x xs ih =>
    intro b
    rw [pickBest]
    by_cases hfx : f b < f x
    · simp only [hfx, if_true]
      rcases List.mem_cons.mp (ih x) with h | h
      · rw [h]; exact List.mem_cons_of_mem _ (List.mem_cons_self _ _)
      · exact List.mem_cons_of_mem _ (List.mem_cons_of_mem _ h)
    · simp only [hfx, if_false]
      rcases List.mem_cons.mp (ih b) with h | h
      · rw [h]; exact List.mem_cons_self _ _
      · exact List.mem_cons_of_mem _ (List.mem_cons_of_mem _ h)

theorem pickBest_of_le (f : List Char → ℚ) :
    ∀ (l : List (List Char)) (b : List Char), (∀ x ∈ l, f x ≤ f b) →
      pickBest f b l = b := by
  intro l
  induction l with
  | nil => intro b _; rfl
  | cons x xs ih =>
    intro b h
    rw [pickBest]
    have hx : ¬ f b < f x := not_lt.mpr (h x (List.mem_cons_self _ _))
    simp only [hx, if_false]
    exact ih b (fun y hy => h y (List.mem_cons_of_mem _ hy))

/-! ## Supporting lemmas: the empty input -/

/-- The variants record produced by preprocessing the empty string. -/
def emptyVariants : V3Variants :=
  { original := [], cleaned := [], noBrackets := [], bracketContent := [],
    lowerCase := [], reserved := [], regular := [], allTokens := [] }

theorem processWithReservedWordsV3_nil (cut : List Char → List (List Char)) :
    processWithReservedWordsV3 cut [] =
      { reserved := [], regular := [], allTokens := [], original := [] } := by
  unfold processWithReservedWordsV3
  have h : extractReservedWords [] = ([], []) := by decide
  rw [h]
  rfl

theorem preprocessTextV3_nil (cut : List Char → List (List Char)) :
    preprocessTextV3 cut [] = emptyVariants := by
  unfold preprocessTextV3
  have h0 : collapseWs (stripL ([] : List Char)) = [] := by decide
  rw [h0, processWithReservedWordsV3_nil]
  decide

theorem calcReservedWordScoreV3_nil (cat : List Char) :
    calcReservedWordScoreV3 cat [] = 0 := by
  unfold calcReservedWordScoreV3
  split
  · rfl
  · rfl

theorem keywordScoreOf_eq_zero (kw : Tiers) (t : List Char)
    (h1 : (kw.strong.filter (fun k => containsSub (lowerL k) t)).length = 0)
    (h2 : (kw.medium.filter (fun k => containsSub (lowerL k) t)).length = 0)
    (h3 : (kw.weak.filter (fun k => containsSub (lowerL k) t)).length = 0) :
    keywordScoreOf kw t = 0 := by
  unfold keywordScoreOf keywordHits
  rw [h1, h2, h3]
  split_ifs <;> norm_num

theorem calcKeywordScoreV3_empty (cat : List Char) :
    calcKeywordScoreV3 cat emptyVariants = 0 := by
  unfold calcKeywordScoreV3
  split
  · rfl
  · rename_i kw hlk
    have hm := lookup_mem hlk
    fin_cases hm <;>
      exact keywordScoreOf_eq_zero _ _ (by decide) (by decide) (by decide)

theorem patternScoreOf_all_empty (matcher : List Char → List Char → Bool)
    (pats tests : List (List Char)) (h : ∀ t ∈ tests, t.isEmpty = true) :
    patternScoreOf matcher pats tests = 0 := by
  unfold patternScoreOf
  split_ifs with he
  · rfl
  · have hany : ∀ p, (tests.any (fun t => !t.isEmpty && matcher p t)) = false := by
      intro p
      rw [List.any_eq_false]
      intro t ht
      rw [h t ht]
      simp
    have hfil : pats.filter (fun p => tests.any (fun t => !t.isEmpty && matcher p t)) = [] := by
      rw [List.filter_eq_nil_iff]
      intro p _
      rw [hany p]
      exact Bool.false_ne_true
    rw [hfil]
    norm_num

theorem calcPatternScoreV3_empty (matcher : List Char → List Char → Bool)
    (cat : List Char) : calcPatternScoreV3 matcher cat emptyVariants = 0 := by
  unfold calcPatternScoreV3
  split
  · rfl
  · exact patternScoreOf_all_empty matcher _ _ (by decide)

theorem calcSimilarityScoreV3_empty (sim : List Char → List Char → Option ℚ)
    (cat : List Char) : calcSimilarityScoreV3 sim cat emptyVariants = 0 := by
  unfold calcSimilarityScoreV3
  split_ifs with he
  · rfl
  · exact absurd (by decide : (similaritySearchText emptyVariants).isEmpty = true) he

theorem scoreBreakdownV3_empty (matcher : List Char → List Char → Bool)
    (sim : List Char → List Char → Option ℚ) (cat : List Char) :
    scoreBreakdownV3 matcher sim emptyVariants cat = ⟨0, 0, 0, 0, 0⟩ := by
  unfold scoreBreakdownV3
  rw [show emptyVariants.reserved = [] from rfl, calcReservedWordScoreV3_nil,
    calcKeywordScoreV3_empty, calcPatternScoreV3_empty,
    calcSimilarityScoreV3_empty]
  have hw : v3Weighted 0 0 0 0 = 0 := by unfold v3Weighted; ring
  rw [hw, applyExclusionRulesFor_zero]

/-- The ultimate segmenter's output on the empty string. -/
def emptyUltProcessed : UltProcessed :=
  { original := [], reserved := [], remaining := [], expanded := [],
    allTokens := [], processedText := [] }

theorem processUlt_nil (cut : List Char → List (List Char)) :
    processUlt cut [] = emptyUltProcessed := by
  have h : ultExtract [] = ([], []) := by decide
  have h2 : ultRemaining cut [] = [] := by
    unfold ultRemaining
    rw [h]
    rw [if_pos (by decide)]
  unfold processUlt
  rw [h, h2]
  decide

theorem calcScoreUlt_nonneg (sim : List Char → List Char → Option ℚ)
    (p : UltProcessed) (cat : List Char) : 0 ≤ calcScoreUlt sim p cat := by
  unfold calcScoreUlt
  split
  · exact le_rfl
  · exact le_max_left _ _

theorem ultReservedSub_nil (rules : URules) : ultReservedSub rules [] = 0 := by
  unfold ultReservedSub
  have h : ∀ w : List Char, List.elem w ([] : List (List Char)) = false :=
    fun w => rfl
  have hfil : rules.reservedBoost.filter (fun w => List.elem w ([] : List (List Char))) = [] := by
    rw [List.filter_eq_nil_iff]
    intro w _
    rw [h w]
    exact Bool.false_ne_true
  rw [hfil]
  norm_num

theorem ultExcludePenalty_nil (rules : URules) :
    ultExcludePenalty rules [] = 0 := by
  unfold ultExcludePenalty
  have h : (rules.excludeIfHasReserved.any
      (fun w => List.elem w ([] : List (List Char)))) = false := by
    rw [List.any_eq_false]
    intro w _
    simp [List.elem]
  rw [h]
  rfl

theorem ultKeywordSub_zero {rules : URules} {t : List Char}
    (h : (rules.keywords.filter
      (fun k => containsSub (lowerL k) (lowerL t))).length = 0) :
    ultKeywordSub rules t = 0 := by
  unfold ultKeywordSub
  rw [h]
  norm_num

theorem ultPatternSub_zero {rules : URules} {t : List Char}
    (h : (rules.upatterns.filter (fun pt => matchUPattern pt t)).length = 0) :
    ultPatternSub rules t = 0 := by
  unfold ultPatternSub
  rw [h]
  norm_num

theorem calcScoreUlt_empty (sim : List Char → List Char → Option ℚ)
    (cat : List Char) (hs : sim [] cat = none ∨ sim [] cat = some 0) :
    calcScoreUlt sim emptyUltProcessed cat = 0 := by
  unfold calcScoreUlt
  split
  · rfl
  · rename_i rules hlk
    have hsim0 : ultSimilaritySub sim [] cat = 0 := by
      unfold ultSimilaritySub
      rcases hs with h | h <;> rw [h]
    have hm := lookup_mem hlk
    fin_cases hm <;>
      rw [show emptyUltProcessed.reserved = [] from rfl,
        show emptyUltProcessed.processedText = [] from rfl,
        show emptyUltProcessed.original = [] from rfl,
        ultReservedSub_nil, ultKeywordSub_zero (by decide),
        ultPatternSub_zero (by decide), ultExcludePenalty_nil, hsim0] <;>
      norm_num

/-! ## Claims -/

/-- `lenSortedDesc l` holds when consecutive elements of `l` have
non-increasing length (the order produced by
`sorted(..., key=len, reverse=True)`). -/
def lenSortedDesc : List (List Char) → Bool
  | [] => true
  | [_] => true
  | a :: b :: t => decide (b.length ≤ a.length) && lenSortedDesc (b :: t)

/-- C1, counterexample.  The claim says that when lexicon phrase A is a
substring of lexicon phrase B and B occurs in the input, B is recorded in
`reserved_words` while A does not additionally match inside B's matched
span.  On the input 資料庫管理系統 — which is exactly the phrase B, so any
match of A = 資料庫 (and of 管理系統) lies inside B's span — the source
nevertheless records all three phrases, because its containment test
(`if reserved_phrase in text`) runs against the **original** text, not the
placeholder-rewritten remainder. -/
theorem c1_counterexample :
    containsSub (cs "資料庫") (cs "資料庫管理系統") = true ∧
    cs "資料庫" ∈ v3ReservedKeys ∧ cs "資料庫管理系統" ∈ v3ReservedKeys ∧
    (extractReservedWords (cs "資料庫管理系統")).1 =
      [cs "資料庫管理系統", cs "管理系統", cs "資料庫"] := by
  refine ⟨by decide, by decide, by decide, by decide⟩

/-- C1, amended.  Lexicon phrases are tried in descending length order
(`sortedReservedV3` is a length-descending permutation of the lexicon
keys), and the recorded `reserved_words` are exactly the phrases contained
in the **original** input text, in that trial order: the placeholder
replacement only protects the remainder handed to the generic tokenizer,
so a shorter phrase occurring inside a longer phrase's matched span is
still additionally recorded. -/
theorem c1_amended_order :
    (∀ text : List Char,
      (extractReservedWords text).1 =
        sortedReservedV3.filter (fun p => containsSub p text)) ∧
    lenSortedDesc sortedReservedV3 = true ∧
    List.Perm sortedReservedV3 v3ReservedKeys := by
  refine ⟨?_, by decide, by decide⟩
  intro text
  show (extractLoop phMark text sortedReservedV3 ([], text)).1 = _
  rw [extractLoop_found]
  rfl

/-- C3, counterexample.  In the ultimate variant, `all_tokens` is the
decomposition **expansion** of the found phrases followed by the remaining
words — not `reserved_words ++ regular_words`: on 防火牆設備 the code
records `reserved_words = [防火牆設備]` but returns
`all_tokens = [防火牆, 設備]`. -/
theorem c3_counterexample :
    (processUlt cutOne (cs "防火牆設備")).reserved = [cs "防火牆設備"] ∧
    (processUlt cutOne (cs "防火牆設備")).remaining = [] ∧
    (processUlt cutOne (cs "防火牆設備")).allTokens = [cs "防火牆", cs "設備"] ∧
    (processUlt cutOne (cs "防火牆設備")).allTokens ≠
      (processUlt cutOne (cs "防火牆設備")).reserved ++
        (processUlt cutOne (cs "防火牆設備")).remaining := by
  refine ⟨by decide, by decide, by decide, by decide⟩

/-- C3, amended.  In the v3 segmenter `all_tokens` is exactly
`reserved_words ++ regular_words`; in the ultimate variant it is the
decomposition expansion of `reserved_words` followed by the remaining
words.  (Both equalities hold by the construction of the result record,
which mirrors the source's concatenations.) -/
theorem c3_all_tokens (cut : List Char → List (List Char)) (text : List Char) :
    (processWithReservedWordsV3 cut text).allTokens =
      (processWithReservedWordsV3 cut text).reserved ++
        (processWithReservedWordsV3 cut text).regular ∧
    (processUlt cut text).allTokens =
      ultExpand (processUlt cut text).reserved ++ (processUlt cut text).remaining :=
  ⟨rfl, rfl⟩

/-- C2, counterexample.  Three parts of the claim fail on the code.
(a) Multiset containment fails in the v3 segmenter: on 防火牆防火牆 with a
partitioning tokenizer (`cutOne`), the phrase 防火牆 is recorded once while
both of its occurrences are replaced, so the output carries only one copy
of each character against two in the original.  (b) Even set containment
fails in the ultimate segmenter: on the single-character input 人 the token
filter `len(w.strip()) > 1` drops everything.  (c) There is no fallback for
input that is empty after cleaning: preprocessing a single space yields an
empty token list, not the original text. -/
theorem c2_counterexample :
    ((processWithReservedWordsV3 cutOne (cs "防火牆防火牆")).allTokens.flatten.count '防' = 1 ∧
      (cs "防火牆防火牆").count '防' = 2) ∧
    ((processUlt cutOne (cs "人")).allTokens = [] ∧ cs "人" ≠ []) ∧
    ((preprocessTextV3 cutOne (cs " ")).allTokens = [] ∧ cs " " ≠ []) := by
  refine ⟨⟨by decide, by decide⟩, ⟨by decide, by decide⟩, ⟨by decide, by decide⟩⟩

/-- C2, amended.  For every input text, every character of the input that
is neither whitespace nor in the placeholder alphabet
(`[`, `]`, `_`, the letters of `RESERVED`, digits) reappears in
`reserved_words ++ regular_words` of the v3 segmenter, provided the
generic tokenizer partitions its input — i.e. set-coverage of all ordinary
(in particular all CJK) characters; the multiset form fails for duplicated
phrase occurrences, characters spelling a placeholder are destroyed by the
cleanup regex, the ultimate variant additionally drops single-character
tokens, and an input empty after cleaning yields an empty token list. -/
theorem c2_coverage (cut : List Char → List (List Char))
    (hcut : ∀ s, (cut s).flatten = s) (text : List Char) (c : Char)
    (hc : c ∈ text) (hw : isPyWs c = false) (ha : phAlphaP c = false) :
    c ∈ ((preprocessTextV3 cut text).reserved ++
      (preprocessTextV3 cut text).regular).flatten := by
  have h1 : c ∈ stripL text := mem_stripL hc hw
  have h2 : c ∈ collapseWs (stripL text) := collapseWs_cover h1 hw
  exact segV3_cover cut hcut (collapseWs (stripL text)) h2 hw ha

theorem c2_coverage_witness :
    '牆' ∈ cs "防火牆x" ∧ isPyWs '牆' = false ∧ phAlphaP '牆' = false ∧
    '牆' ∈ ((preprocessTextV3 cutOne (cs "防火牆x")).reserved ++
      (preprocessTextV3 cutOne (cs "防火牆x")).regular).flatten :=
  ⟨by decide, by decide, by decide,
    c2_coverage cutOne (fun s => by simp [cutOne]) (cs "防火牆x") '牆'
      (by decide) (by decide) (by decide)⟩

/-- The rule table used by the C4 counterexample: one compound
(reserved-phrase AND substring) boost rule and one plain substring penalty
rule. -/
def c4Rules : ExclusionRules :=
  { noRules with
    includeIfReservedAndHas := [(cs "防火牆", cs "設備")]
    excludeIfHas := [cs "設備"] }

/-- C4, counterexample.  The claim orders the rule classes
(a) reserved boost, (b) reserved penalty, (c) the substring checks,
(d) the compound rules; the source evaluates the compound rules **before**
the plain substring checks (and, within the substring checks, the penalty
before the boost).  On a rule table containing a matching compound boost
and a matching substring penalty, the source returns `base * 2.0` while the
spec's order returns `base * 0.3`. -/
theorem c4_counterexample :
    applyExclusionRules c4Rules [cs "防火牆"] (cs "防火牆設備") 1 = 2 ∧
    specOrderApplyExclusionRules c4Rules [cs "防火牆"] (cs "防火牆設備") 1 = 3 / 10 ∧
    (2 : ℚ) ≠ 3 / 10 := by
  refine ⟨?_, ?_, by norm_num⟩
  · unfold applyExclusionRules
    rw [if_neg (by decide), if_neg (by decide), if_pos (by decide)]
    norm_num
  · unfold specOrderApplyExclusionRules
    rw [if_neg (by decide), if_neg (by decide), if_neg (by decide),
      if_pos (by decide)]
    norm_num

/-- C4, amended.  The adjustment applies exactly one multiplicative factor,
selected by the first matching rule class in the source's fixed order —
(a) reserved boost ×2.0, (b) reserved penalty ×0.2, then the compound
include ×2.0 and compound exclude ×0.2 rules, then the plain substring
exclude ×0.3 and include ×1.5 checks — and no further rule stacks; in the
shipped v3 rule tables no category carries both a compound rule and a plain
substring rule, so the misordering in the claim is unobservable on the
shipped configuration. -/
theorem c4_first_match_order :
    (∀ (rules : ExclusionRules) (reserved : List (List Char))
        (combinedText : List Char) (base : ℚ),
      applyExclusionRules rules reserved combinedText base =
        base * exclusionMultiplier rules reserved combinedText) ∧
    (∀ (rules : ExclusionRules) (reserved : List (List Char))
        (combinedText : List Char),
      exclusionMultiplier rules reserved combinedText ∈
        ([2, 1 / 5, 3 / 10, 3 / 2, 1] : List ℚ)) ∧
    (∀ e ∈ v3ExclusionRules,
      (e.2.includeIfReservedAndHas = [] ∧ e.2.excludeIfReservedAndHas = []) ∨
        (e.2.excludeIfHas = [] ∧ e.2.includeIfHas = [])) := by
  refine ⟨applyExclusionRules_eq_mul, ?_, by decide⟩
  intro rules reserved combinedText
  unfold exclusionMultiplier
  split_ifs <;> norm_num

/-- C5, counterexample.  The ultimate variant applies no normalisation to
its sub-scores: on 防火牆設備, category 實體, the reserved sub-score is
3.0 > 1 (a flat 3.0 per boost phrase found, never divided or capped). -/
theorem c5_counterexample :
    (ultRules.lookup (cs "實體")).isSome = true ∧
    ultReservedSub
      ((ultRules.lookup (cs "實體")).getD
        { keywords := [], upatterns := [], reservedBoost := [],
          excludeIfHasReserved := [] })
      (processUlt cutOne (cs "防火牆設備")).reserved = 3 ∧
    ¬ ((3 : ℚ) ≤ 1) := by
  refine ⟨by decide, ?_, by norm_num⟩
  unfold ultReservedSub
  rw [show (((ultRules.lookup (cs "實體")).getD
      { keywords := [], upatterns := [], reservedBoost := [],
        excludeIfHasReserved := [] }).reservedBoost.filter
      (fun w => (processUlt cutOne (cs "防火牆設備")).reserved.elem w)).length = 1
    from by decide]
  norm_num

/-- C5, amended.  In the v3 classifier the reserved sub-score and the
keyword sub-score are each in [0,1] before the fixed weighting, for every
input and every category (the reserved score is normalised by the number of
reserved phrases found and capped at 1.0, the keyword score by the maximum
attainable score of the category's lists); the ultimate variant's
sub-scores are unnormalised and can exceed 1. -/
theorem c5_v3_subscore_bounds (cat : List Char) (reserved : List (List Char))
    (v : V3Variants) :
    (0 ≤ calcReservedWordScoreV3 cat reserved ∧
      calcReservedWordScoreV3 cat reserved ≤ 1) ∧
    (0 ≤ calcKeywordScoreV3 cat v ∧ calcKeywordScoreV3 cat v ≤ 1) :=
  ⟨calcReservedWordScoreV3_bounds cat reserved, calcKeywordScoreV3_bounds cat v⟩

/-- C6.  Boost/exclude monotonicity of the v3 exclusion rules, for any
non-negative base score: when a found reserved phrase is on the include
list, the adjusted score is at least the score computed with the include
rule removed (emptied); when one is on the exclude list, the adjusted score
is at most the score computed with the exclude rule removed. -/
theorem c6_boost_exclude_monotone (rules : ExclusionRules)
    (reserved : List (List Char)) (combinedText : List Char) (base : ℚ)
    (hb : 0 ≤ base) :
    ((rules.includeReserved.any (fun w => reserved.elem w)) = true →
      applyExclusionRules { rules with includeReserved := [] } reserved
          combinedText base ≤
        applyExclusionRules rules reserved combinedText base) ∧
    ((rules.excludeReserved.any (fun w => reserved.elem w)) = true →
      applyExclusionRules rules reserved combinedText base ≤
        applyExclusionRules { rules with excludeReserved := [] } reserved
          combinedText base) := by
  constructor
  · intro hinc
    have hr : applyExclusionRules rules reserved combinedText base = base * 2 := by
      unfold applyExclusionRules
      rw [if_pos hinc]
    rw [hr, applyExclusionRules_eq_mul]
    have h2 := (exclusionMultiplier_bounds { rules with includeReserved := [] }
      reserved combinedText).2
    nlinarith
  · intro hexc
    by_cases hinc : (rules.includeReserved.any (fun w => reserved.elem w)) = true
    · have h1 : applyExclusionRules rules reserved combinedText base =
          base * 2 := by
        unfold applyExclusionRules
        rw [if_pos hinc]
      have hinc2 : (({ rules with excludeReserved := [] } :
          ExclusionRules).includeReserved.any (fun w => reserved.elem w)) = true :=
        hinc
      have h2 : applyExclusionRules { rules with excludeReserved := [] }
          reserved combinedText base = base * 2 := by
        unfold applyExclusionRules
        rw [if_pos hinc2]
      rw [h1, h2]
    · have h1 : applyExclusionRules rules reserved combinedText base =
          base * (1 / 5) := by
        unfold applyExclusionRules
        rw [if_neg hinc, if_pos hexc]
      rw [h1, applyExclusionRules_eq_mul]
      have h5 := (exclusionMultiplier_bounds { rules with excludeReserved := [] }
        reserved combinedText).1
      nlinarith

/-- The rule table used by the C6 witness: one include phrase and one
exclude phrase. -/
def c6Rules : ExclusionRules :=
  { noRules with
    includeReserved := [cs "作業文件"]
    excludeReserved := [cs "電子紀錄"] }

theorem c6_boost_exclude_monotone_witness :
    (0 : ℚ) ≤ 1 ∧
    (c6Rules.includeReserved.any
      (fun w => [cs "作業文件", cs "電子紀錄"].elem w)) = true ∧
    (c6Rules.excludeReserved.any
      (fun w => [cs "作業文件", cs "電子紀錄"].elem w)) = true ∧
    applyExclusionRules { c6Rules with includeReserved := [] }
        [cs "作業文件", cs "電子紀錄"] [] 1 ≤
      applyExclusionRules c6Rules [cs "作業文件", cs "電子紀錄"] [] 1 ∧
    applyExclusionRules c6Rules [cs "作業文件", cs "電子紀錄"] [] 1 ≤
      applyExclusionRules { c6Rules with excludeReserved := [] }
        [cs "作業文件", cs "電子紀錄"] [] 1 := by
  refine ⟨by norm_num, by decide, by decide, ?_, ?_⟩
  · exact (c6_boost_exclude_monotone c6Rules [cs "作業文件", cs "電子紀錄"] []
      1 (by norm_num)).1 (by decide)
  · exact (c6_boost_exclude_monotone c6Rules [cs "作業文件", cs "電子紀錄"] []
      1 (by norm_num)).2 (by decide)

/-- C7.  Classifying the empty string (against any non-empty category list,
i.e. a classifier built from a non-empty training set) returns a result —
no exception path is taken — whose confidence is exactly 0.0, with every
category scored 0, and whose winner is the first category in iteration
order; this holds for both classifier variants.  For the ultimate variant
the similarity collaborator is assumed to yield no signal (an exception or
a 0.0 cosine) on the empty query, which is what TF-IDF transforming an
empty string produces. -/
theorem c7_empty_input (cut : List Char → List (List Char))
    (matcher : List Char → List Char → Bool)
    (sim : List Char → List Char → Option ℚ) (c0 : List Char)
    (rest : List (List Char))
    (hsim : ∀ cat, sim [] cat = none ∨ sim [] cat = some 0) :
    classifyV3 cut matcher sim (c0 :: rest) [] =
      some { best := c0, confidence := 0,
             scores := (c0 :: rest).map (fun c => (c, ⟨0, 0, 0, 0, 0⟩)) } ∧
    classifyUlt cut sim (c0 :: rest) [] =
      some { best := c0, confidence := 0,
             scores := (c0 :: rest).map (fun c => (c, 0)) } := by
  constructor
  · simp only [classifyV3, preprocessTextV3_nil, scoreBreakdownV3_empty]
    rw [pickBest_of_le _ rest c0 (fun x _ => le_rfl)]
  · have hz : ∀ c, calcScoreUlt sim emptyUltProcessed c = 0 := fun c =>
      calcScoreUlt_empty sim c (hsim c)
    simp only [classifyUlt, processUlt_nil, hz]
    rw [pickBest_of_le _ rest c0 (fun x _ => le_rfl)]

theorem c7_empty_input_witness :
    classifyV3 cutOne matchNever simNever [cs "軟體", cs "硬體"] [] =
      some { best := cs "軟體", confidence := 0,
             scores := [(cs "軟體", ⟨0, 0, 0, 0, 0⟩),
                        (cs "硬體", ⟨0, 0, 0, 0, 0⟩)] } ∧
    classifyUlt cutOne simNever [cs "軟體", cs "硬體"] [] =
      some { best := cs "軟體", confidence := 0,
             scores := [(cs "軟體", 0), (cs "硬體", 0)] } :=
  c7_empty_input cutOne matchNever simNever (cs "軟體") [cs "硬體"]
    (fun _ => Or.inl rfl)

/-- C8.  When the similarity collaborator fails on a category (returns
`none`, standing for a raised exception or a missing centroid), the
similarity sub-score of that category is substituted with 0.0, the other
three sub-scores feed the weighted total exactly as usual, and
classification still returns a result containing that category's
breakdown. -/
theorem c8_similarity_failure (cut : List Char → List (List Char))
    (matcher : List Char → List Char → Bool)
    (sim : List Char → List Char → Option ℚ) (text c c0 : List Char)
    (rest : List (List Char)) (hmem : c ∈ c0 :: rest)
    (hfail : sim (similaritySearchText (preprocessTextV3 cut text)) c = none) :
    calcSimilarityScoreV3 sim c (preprocessTextV3 cut text) = 0 ∧
    (scoreBreakdownV3 matcher sim (preprocessTextV3 cut text) c).similarityScore = 0 ∧
    (scoreBreakdownV3 matcher sim (preprocessTextV3 cut text) c).totalScore =
      applyExclusionRulesFor c (preprocessTextV3 cut text)
        (v3Weighted
          (calcReservedWordScoreV3 c (preprocessTextV3 cut text).reserved)
          (calcKeywordScoreV3 c (preprocessTextV3 cut text))
          (calcPatternScoreV3 matcher c (preprocessTextV3 cut text)) 0) ∧
    (classifyV3 cut matcher sim (c0 :: rest) text).isSome = true ∧
    (c, scoreBreakdownV3 matcher sim (preprocessTextV3 cut text) c) ∈
      (classifyV3 cut matcher sim (c0 :: rest) text).elim []
        (fun r => r.scores) := by
  have h0 : calcSimilarityScoreV3 sim c (preprocessTextV3 cut text) = 0 := by
    unfold calcSimilarityScoreV3
    split_ifs with he
    · rfl
    · rw [hfail]
  refine ⟨h0, h0, ?_, rfl, ?_⟩
  · show applyExclusionRulesFor c (preprocessTextV3 cut text)
      (v3Weighted
        (calcReservedWordScoreV3 c (preprocessTextV3 cut text).reserved)
        (calcKeywordScoreV3 c (preprocessTextV3 cut text))
        (calcPatternScoreV3 matcher c (preprocessTextV3 cut text))
        (calcSimilarityScoreV3 sim c (preprocessTextV3 cut text))) = _
    rw [h0]
  · exact List.mem_map_of_mem _ hmem

theorem c8_similarity_failure_witness :
    cs "軟體" ∈ [cs "軟體"] ∧
    simNever (similaritySearchText (preprocessTextV3 cutOne (cs "資料庫")))
      (cs "軟體") = none ∧
    calcSimilarityScoreV3 simNever (cs "軟體")
      (preprocessTextV3 cutOne (cs "資料庫")) = 0 ∧
    (classifyV3 cutOne matchNever simNever [cs "軟體"] (cs "資料庫")).isSome = true :=
  have h := c8_similarity_failure cutOne matchNever simNever (cs "資料庫")
    (cs "軟體") (cs "軟體") [] (by decide) rfl
  ⟨by decide, rfl, h.1, h.2.2.2.1⟩

/-- C10.  Every per-category combined score, and therefore the confidence
returned by either classify, is non-negative: the ultimate variant floors
its subtractive penalty at 0.0, and the v3 variant multiplies a
non-negative weighted sum by positive rule multipliers.  The similarity
collaborator is assumed to return non-negative values (cosine similarity of
TF-IDF vectors, which have non-negative entries). -/
theorem c10_nonneg (cut : List Char → List (List Char))
    (matcher : List Char → List Char → Bool)
    (sim : List Char → List Char → Option ℚ) (cats : List (List Char))
    (text c : List Char) (hsim : ∀ t cc q, sim t cc = some q → 0 ≤ q) :
    0 ≤ (scoreBreakdownV3 matcher sim (preprocessTextV3 cut text) c).totalScore ∧
    0 ≤ calcScoreUlt sim (processUlt cut text) c ∧
    0 ≤ (classifyV3 cut matcher sim cats text).elim 0 (fun r => r.confidence) ∧
    0 ≤ (classifyUlt cut sim cats text).elim 0 (fun r => r.confidence) := by
  refine ⟨scoreBreakdownV3_total_nonneg hsim _ _, calcScoreUlt_nonneg sim _ _,
    ?_, ?_⟩
  · cases cats with
    | nil => exact le_rfl
    | cons c0 rest =>
      show 0 ≤ (scoreBreakdownV3 matcher sim (preprocessTextV3 cut text)
        (pickBest
          (fun cc => (scoreBreakdownV3 matcher sim (preprocessTextV3 cut text) cc).totalScore)
          c0 rest)).totalScore
      exact scoreBreakdownV3_total_nonneg hsim _ _
  · cases cats with
    | nil => exact le_rfl
    | cons c0 rest =>
      show 0 ≤ calcScoreUlt sim (processUlt cut text)
        (pickBest (fun cc => calcScoreUlt sim (processUlt cut text) cc) c0 rest)
      exact calcScoreUlt_nonneg sim _ _

theorem c10_nonneg_witness :
    0 ≤ (scoreBreakdownV3 matchNever simNever
      (preprocessTextV3 cutOne (cs "防火牆")) (cs "硬體")).totalScore ∧
    0 ≤ calcScoreUlt simNever (processUlt cutOne (cs "防火牆")) (cs "硬體") ∧
    0 ≤ (classifyV3 cutOne matchNever simNever [cs "軟體"] (cs "防火牆")).elim 0
      (fun r => r.confidence) ∧
    0 ≤ (classifyUlt cutOne simNever [cs "軟體"] (cs "防火牆")).elim 0
      (fun r => r.confidence) :=
  c10_nonneg cutOne matchNever simNever [cs "軟體"] (cs "防火牆") (cs "硬體")
    (fun _ _ _ h => nomatch h)

/-- C9.  Classification mutates no instance state: with the instance state
threaded explicitly, the state returned by a call equals the state
received, and a second call on the returned state yields an identical
result — for both classifier variants.  (The embedding threads the state
through the call exactly as the source does; the source's classification
path contains no assignment to `self`.) -/
theorem c9_idempotent (st : V3State) (stu : UltState) (text : List Char) :
    ((classifyV3St st text).2 = st ∧
      (classifyV3St (classifyV3St st text).2 text).1 = (classifyV3St st text).1) ∧
    ((classifyUltSt stu text).2 = stu ∧
      (classifyUltSt (classifyUltSt stu text).2 text).1 =
        (classifyUltSt stu text).1) :=
  ⟨⟨rfl, rfl⟩, ⟨rfl, rfl⟩⟩

end Cht
